import Mathlib

/-!
Formal model of the `readable` language-learning reader (source: `src/scripts.js`,
with an earlier revision of the same program in `src/unnamed/part_000`).

JavaScript strings are modelled as `List Char`; the DOM audio elements and
buttons are identified by natural numbers; asynchronous control flow is
modelled either as atomic state transformers on an explicit program state
(for the playback-slot invariants) or as event traces (for the sequencer's
temporal ordering).  Each definition is a direct translation of the named
source function.
-/

namespace Readable

/-! ### JS string primitives, modelled over lists of characters -/

/-- Model of JavaScript `String.prototype.split` with a single-character
separator: `"".split(s) = [""]`, and every occurrence of the separator
starts a new (possibly empty) segment. -/
def jsSplit (sep : Char) : List Char → List (List Char)
  | [] => [[]]
  | c :: rest =>
    match jsSplit sep rest with
    | [] => [[]]
    | p :: ps => if c = sep then [] :: p :: ps else (c :: p) :: ps

/-- Model of JavaScript `Array.prototype.join` with a single-character
separator. -/
def jsJoin (sep : Char) : List (List Char) → List Char
  | [] => []
  | [p] => p
  | p :: ps => p ++ sep :: jsJoin sep ps

/-- The sixteen uppercase hexadecimal digit characters. -/
def hexChars : List Char :=
  ['0', '1', '2', '3', '4', '5', '6', '7', '8', '9', 'A', 'B', 'C', 'D', 'E', 'F']

/-- The hexadecimal digit character for a value below 16. -/
def hexDigit (n : Nat) : Char := hexChars.getD n '0'

/-- Percent-encode one byte as `%XY` with uppercase hexadecimal digits. -/
def pctEncodeByte (b : Nat) : List Char := ['%', hexDigit (b / 16), hexDigit (b % 16)]

/-- UTF-8 byte sequence of a Unicode scalar value (as used by JavaScript's
`encodeURIComponent` when percent-encoding a character). -/
def utf8Bytes (n : Nat) : List Nat :=
  if n < 0x80 then [n]
  else if n < 0x800 then [0xC0 + n / 64, 0x80 + n % 64]
  else if n < 0x10000 then [0xE0 + n / 4096, 0x80 + (n / 64) % 64, 0x80 + n % 64]
  else [0xF0 + n / 262144, 0x80 + (n / 4096) % 64, 0x80 + (n / 64) % 64, 0x80 + n % 64]

/-- The characters JavaScript's `encodeURIComponent` leaves unescaped:
`A`-`Z`, `a`-`z`, `0`-`9`, and `- _ . ! ~ * ' ( )` (the character with
code 39 is the apostrophe). -/
def uriUnreserved (c : Char) : Bool :=
  c.isAlpha || c.isDigit ||
    ['-', '_', '.', '!', '~', '*', Char.ofNat 39, '(', ')'].contains c

/-- `encodeURIComponent` on one character: unreserved characters pass
through; every other character is UTF-8 encoded and each byte
percent-escaped. -/
def encodeChar (c : Char) : List Char :=
  if uriUnreserved c then [c]
  else ((utf8Bytes c.toNat).map pctEncodeByte).flatten

/-- Model of JavaScript's `encodeURIComponent`. -/
def encodeURIComponent (s : List Char) : List Char :=
  (s.map encodeChar).flatten

/-- `AUDIO_DIR` from `src/scripts.js` line 17. -/
def AUDIO_DIR : List Char := "Audio".toList

/-- `AUDIO_EXT` from `src/scripts.js` line 18. -/
def AUDIO_EXT : List Char := "m4a".toList

/-- The `path` local of `buildAudioUrl` (`src/scripts.js` lines 38-39):
`` `${AUDIO_DIR}/${language}/${sentenceText}.${AUDIO_EXT}` ``. -/
def audioPath (language sentenceText : List Char) : List Char :=
  AUDIO_DIR ++ '/' :: language ++ '/' :: (sentenceText ++ '.' :: AUDIO_EXT)

/-- `buildAudioUrl` (`src/scripts.js` lines 34-44): build the path, split it
on `/`, percent-encode each segment, and re-join with literal slashes. -/
def buildAudioUrl (language sentenceText : List Char) : List Char :=
  jsJoin '/' ((jsSplit '/' (audioPath language sentenceText)).map encodeURIComponent)

/-! ### Lesson sequencer: trace semantics of `playLessonInOrder`

`playLessonInOrder` (`src/scripts.js` lines 187-201) is an async loop whose
only suspension points are `await playOne(urls[i], ...)` and
`await sleep(1000)`, with a re-read of the shared `lessonPlayback.token`
before each of them.  We model one run as the trace of events it emits:
`obs k` is the value of `lessonPlayback.token` observed at the run's `k`-th
token check (the environment may change the token between suspensions),
`T` is the run's own token, and `ok i` tells whether clip `i`'s play
attempt succeeds (`playOne` resolves on the clip's natural `ended` signal
and rejects if the play call fails, which aborts the whole loop since the
`for` body is not wrapped in a `try`). -/

/-- One playback event of a sequencer run. -/
inductive SeqEvent where
  /-- `playOne(urls[i], btns[i])` was invoked: it stops the current audio,
  binds clip `i` as the new "now playing" pair and attempts playback. -/
  | start (i : Nat)
  /-- clip `i` reached its natural `ended` signal, resolving `playOne`. -/
  | complete (i : Nat)
  /-- clip `i`'s play attempt rejected; `playOne` rejects and the loop
  aborts by exception propagation. -/
  | fail (i : Nat)
  /-- `await sleep(ms)` elapsed. -/
  | sleep (ms : Nat)
deriving DecidableEq

/-- The loop body of `playLessonInOrder` from index `i`, with `k` counting
token checks performed so far.  Note the loop never inspects the url
values themselves. -/
def playLessonAux : List (Option (List Char)) → Nat → Nat → Nat →
    (Nat → Nat) → (Nat → Bool) → List SeqEvent
  | [], _, _, _, _, _ => []
  | _u :: rest, i, k, T, obs, ok =>
    if obs k ≠ T then []
    else if ok i then
      SeqEvent.start i :: SeqEvent.complete i ::
        (match rest with
         | [] => []
         | _ :: _ =>
           if obs (k + 1) ≠ T then []
           else SeqEvent.sleep 1000 :: playLessonAux rest (i + 1) (k + 2) T obs ok)
    else [SeqEvent.start i, SeqEvent.fail i]

/-- `playLessonInOrder(urls, btns, token)`: run the loop from index 0. -/
def playLessonInOrder (urls : List (Option (List Char))) (T : Nat)
    (obs : Nat → Nat) (ok : Nat → Bool) : List SeqEvent :=
  playLessonAux urls 0 0 T obs ok

/-- Following the spec's words (§4.3, §8): the ideal trace of an
uncancelled run over `n` resolvable clips starting at index `i` — clips
strictly in index order, each followed by its completion, a fixed 1-second
delay after every completion except the last. -/
def specOrderedTrace (i : Nat) : Nat → List SeqEvent
  | 0 => []
  | 1 => [SeqEvent.start i, SeqEvent.complete i]
  | n + 2 => SeqEvent.start i :: SeqEvent.complete i :: SeqEvent.sleep 1000 ::
      specOrderedTrace (i + 1) (n + 1)

/-- The indices of the clips a trace starts, in emission order. -/
def startedClips : List SeqEvent → List Nat
  | [] => []
  | SeqEvent.start i :: rest => i :: startedClips rest
  | _ :: rest => startedClips rest

/-- The gating computed by the caller (`render`, `src/scripts.js` lines
675-682): the "Play lesson" control is offered only if no sentence url is
falsy (`sentenceUrls.some((u) => !u)`, i.e. absent or empty) and every
probed existence result is true.  `ex` gives the probe result for each
url. -/
def lessonButtonOffered (sentenceUrls : List (Option (List Char)))
    (ex : List Char → Bool) : Bool :=
  if sentenceUrls.any (fun u =>
      match u with
      | none => true
      | some s => s.isEmpty) then false
  else if (sentenceUrls.map (fun u => ex (u.getD []))).any (fun x => !x) then false
  else true

/-! ### Audio existence cache: `audioExists` -/

/-- Outcome of one `fetch(url, { method: "HEAD", ... })` probe: a network
error (the `catch` path) or a response whose `ok` flag reflects a success
status. -/
inductive FetchOut where
  | err
  | resp (ok : Bool)

/-- The process-wide state owned by `audioExists`: the
`audioExistsCache` map (modelled as an association list, most recent
binding first) and the log of addresses actually probed so far. -/
structure ExistsState where
  cache : List (List Char × Bool)
  fetchLog : List (List Char)

/-- `Map.get`/`Map.has` on the modelled cache. -/
def cacheGet (c : List (List Char × Bool)) (u : List Char) : Option Bool :=
  match c.find? (fun p => p.1 == u) with
  | some p => some p.2
  | none => none

/-- `audioExists` (`src/scripts.js` lines 46-58): return the cached value
if present; otherwise issue one probe (`probe` maps the index of the probe
in process lifetime to its outcome), cache `res.ok` on response and
`false` on network error, and return it. -/
def audioExists (probe : Nat → FetchOut) (s : ExistsState) (u : List Char) :
    Bool × ExistsState :=
  match cacheGet s.cache u with
  | some b => (b, s)
  | none =>
    match probe s.fetchLog.length with
    | FetchOut.resp ok => (ok, ⟨(u, ok) :: s.cache, s.fetchLog ++ [u]⟩)
    | FetchOut.err => (false, ⟨(u, false) :: s.cache, s.fetchLog ++ [u]⟩)

/-- A sequence of `audioExists` calls, threading the cache state. -/
def runExists (probe : Nat → FetchOut) (reqs : List (List Char))
    (s : ExistsState) : ExistsState :=
  reqs.foldl (fun st u => (audioExists probe st u).2) s

/-- The state at page load: empty cache, nothing probed. -/
def initExistsState : ExistsState := ⟨[], []⟩

/-- How many probes a log records for the address `u`. -/
def probeCount (u : List Char) : List (List Char) → Nat
  | [] => 0
  | w :: ws => (if w = u then 1 else 0) + probeCount u ws

/-! ### Single-clip player and its interleaving with the sequencer

The shared mutable state of `src/scripts.js`: the `currentlyPlaying`
slot (lines 23-24), the `lessonPlayback` record (lines 130-134), and the
per-element audio/button DOM state.  Audio elements and buttons are
identified by naturals; `audioPlaying a` models "element `a` is playing"
(`!a.paused` with actual progress), `btnPlaying b` models "button `b`
carries the `is-playing` class".  Each user-visible operation of the
source is an atomic state transformer; an event alphabet `Ev` and `step`
close them under arbitrary interleaving. -/

/-- Pointwise update of a boolean-valued map. -/
def updF (f : Nat → Bool) (x : Nat) (v : Bool) : Nat → Bool :=
  fun y => if y = x then v else f y

/-- The shared mutable program state. -/
structure PlayerState where
  audioPlaying : Nat → Bool
  audioMissing : Nat → Bool
  btnPlaying : Nat → Bool
  curAudio : Option Nat
  curBtn : Option Nat
  running : Bool
  token : Nat
  lessonBtnUI : Bool

/-- The state at page load: nothing playing, token 0, sequencer idle. -/
def initPlayerState : PlayerState :=
  { audioPlaying := fun _ => false
    audioMissing := fun _ => false
    btnPlaying := fun _ => false
    curAudio := none
    curBtn := none
    running := false
    token := 0
    lessonBtnUI := false }

/-- `stopCurrentAudio` (`src/scripts.js` lines 68-78): pause the slot's
audio (and reset its position), reset the slot's button to the idle
visual state, clear the slot. -/
def stopCurrentAudio (s : PlayerState) : PlayerState :=
  let s1 :=
    match s.curAudio with
    | some a => { s with audioPlaying := updF s.audioPlaying a false }
    | none => s
  let s2 :=
    match s1.curBtn with
    | some b => { s1 with btnPlaying := updF s1.btnPlaying b false }
    | none => s1
  { s2 with curAudio := none, curBtn := none }

/-- `stopLessonPlayback` (`src/scripts.js` lines 140-150): increment the
cancellation token, clear the running flag, stop the current audio, and
reset the lesson button's visual state (the source guards on the button
reference being non-null; resetting an absent button's UI is a no-op
here). -/
def stopLessonPlayback (s : PlayerState) : PlayerState :=
  let s1 := { s with token := s.token + 1, running := false }
  let s2 := stopCurrentAudio s1
  { s2 with lessonBtnUI := false }

/-- Lines 102-105 of the click handler: stop other audio if a different
sentence is playing. -/
def stopIfOther (a : Nat) (s : PlayerState) : PlayerState :=
  match s.curAudio with
  | some c => if c ≠ a then stopCurrentAudio s else s
  | none => s

/-- Lines 107-124 of the click handler: toggle off if this exact clip is
playing; otherwise stop, mark the button as playing, bind the pair as the
slot and attempt playback; `ok` is the outcome of `await audio.play()` —
on rejection the clip is flagged `__missing` and the slot is stopped. -/
def manualToggleOrStart (a b : Nat) (ok : Bool) (s : PlayerState) : PlayerState :=
  if s.curAudio = some a ∧ s.audioPlaying a = true then
    stopCurrentAudio s
  else
    let s2 := stopCurrentAudio s
    let s3 := { s2 with btnPlaying := updF s2.btnPlaying b true
                        curAudio := some a
                        curBtn := some b }
    if ok then { s3 with audioPlaying := updF s3.audioPlaying a true }
    else stopCurrentAudio { s3 with audioMissing := updF s3.audioMissing a true }

/-- The body of the manual play-button click handler after its first line
(`src/scripts.js` lines 102-124). -/
def manualClickBody (a b : Nat) (ok : Bool) (s : PlayerState) : PlayerState :=
  manualToggleOrStart a b ok (stopIfOther a s)

/-- The manual play-button click handler (`src/scripts.js` lines 98-125):
if a lesson run is active, `stopLessonPlayback()` runs first, then the
body. -/
def manualClick (a b : Nat) (ok : Bool) (s : PlayerState) : PlayerState :=
  manualClickBody a b ok (if s.running then stopLessonPlayback s else s)

/-- The state effect of `playOne` (`src/scripts.js` lines 152-184): stop
any other audio and reset old UI, mark the sentence button (when there is
one) as playing, bind the new pair as the slot, reset the position and
attempt playback.  On success (`ok`) the clip is playing; on rejection
`playOne` merely detaches its listeners and rejects — it does not flag the
clip and does not stop the slot. -/
def playOne (a : Nat) (b : Option Nat) (ok : Bool) (s : PlayerState) : PlayerState :=
  let s1 := stopCurrentAudio s
  let s2 :=
    match b with
    | some btn => { s1 with btnPlaying := updF s1.btnPlaying btn true }
    | none => s1
  let s3 := { s2 with curAudio := some a, curBtn := b }
  if ok then { s3 with audioPlaying := updF s3.audioPlaying a true } else s3

/-- The atomic events that mutate the shared playback state. -/
inductive Ev where
  /-- a click on sentence button `b` wired to audio `a`; `ok` is the play
  outcome (`src/scripts.js` lines 98-125). -/
  | manual (a b : Nat) (ok : Bool)
  /-- a click on the "Play lesson" button: toggle off a running lesson, or
  mark running, take a fresh token and show "Stop"
  (`src/scripts.js` lines 691-701). -/
  | lessonClick
  /-- one iteration of a sequencer run holding token `T`: the token
  re-check followed by `playOne` (`src/scripts.js` lines 188-191). -/
  | seqPlay (T a : Nat) (b : Option Nat) (ok : Bool)
  /-- audio `a` reached its natural end: the element stops and the wired
  `ended` listener stops the slot if it still owns `a`
  (`src/scripts.js` lines 86-88). -/
  | ended (a : Nat)
  /-- audio `a` errored: the element stops, the wired `error` listener
  flags it missing and stops the slot if it still owns `a`
  (`src/scripts.js` lines 90-93). -/
  | errored (a : Nat)
  /-- the `finally` block of a run holding token `T`
  (`src/scripts.js` lines 708-714). -/
  | runFinally (T : Nat)
  /-- `stopLessonPlayback()` invoked from any other UI action
  (`src/scripts.js` lines 310-375). -/
  | uiCancel

/-- The step function: the state effect of each atomic event. -/
def step (e : Ev) (s : PlayerState) : PlayerState :=
  match e with
  | Ev.manual a b ok => manualClick a b ok s
  | Ev.lessonClick =>
    if s.running then stopLessonPlayback s
    else { s with running := true, token := s.token + 1, lessonBtnUI := true }
  | Ev.seqPlay T a b ok => if s.token = T then playOne a b ok s else s
  | Ev.ended a =>
    let s1 := { s with audioPlaying := updF s.audioPlaying a false }
    if s1.curAudio = some a then stopCurrentAudio s1 else s1
  | Ev.errored a =>
    let s1 := { s with audioPlaying := updF s.audioPlaying a false
                       audioMissing := updF s.audioMissing a true }
    if s1.curAudio = some a then stopCurrentAudio s1 else s1
  | Ev.runFinally T =>
    if s.token = T then
      stopCurrentAudio { s with running := false, lessonBtnUI := false }
    else s
  | Ev.uiCancel => stopLessonPlayback s

/-- The state after an arbitrary interleaving of events from page load. -/
def run (evs : List Ev) : PlayerState :=
  evs.foldl (fun s e => step e s) initPlayerState

/-- The central invariant: anything marked playing is owned by the single
"now playing" slot. -/
def SlotInv (s : PlayerState) : Prop :=
  (∀ a, s.audioPlaying a = true → s.curAudio = some a) ∧
  (∀ b, s.btnPlaying b = true → s.curBtn = some b)

/-! ### Dataset model building: `buildModel`

`buildModel` (`src/scripts.js` lines 456-527; an earlier revision in
`src/unnamed/part_000` lines 251-328 differs only in CEFR backfilling and
default-preference handling, which the claims do not touch).  A parsed CSV
row is modelled with the three fixed columns lifted out and the remaining
(language) columns as an association list in header order.  `Number()` is
modelled on optionally-signed decimal integer numerals — the only shapes
the `Lesson` and `Line` columns take — with `none` standing for `NaN`;
`localeCompare` is modelled as code-point comparison.  JavaScript's
`Array.prototype.sort` is stable (ECMAScript 2019), modelled as a stable
insertion sort; a `NaN` comparator result is treated as a tie. -/

/-- Model of JavaScript `String.prototype.trim`. -/
def jsTrim (l : List Char) : List Char :=
  ((l.dropWhile Char.isWhitespace).reverse.dropWhile Char.isWhitespace).reverse

/-- `jsTrim` on packed strings. -/
def jsTrimS (s : String) : String := String.mk (jsTrim s.toList)

/-- Accumulator loop of the decimal-numeral parser. -/
def parseDigitsAux : List Char → Nat → Option Nat
  | [], acc => some acc
  | c :: r, acc =>
    if c.isDigit then parseDigitsAux r (acc * 10 + (c.toNat - 48)) else none

/-- All-digits parse of a nonempty numeral. -/
def parseDigits (l : List Char) : Option Nat :=
  if l.isEmpty then none else parseDigitsAux l 0

/-- Model of JavaScript `Number()` on optionally-signed decimal integer
numerals: trims, converts the empty string to 0, and yields `none` (NaN)
on any other shape. -/
def jsNumber (s : String) : Option Int :=
  match jsTrim s.toList with
  | [] => some 0
  | c :: rest =>
    if c = '-' then (parseDigits rest).map (fun n => -(n : Int))
    else (parseDigits (c :: rest)).map (fun n => (n : Int))

/-- A parsed CSV row: the three fixed columns plus the language cells in
header order. -/
structure Row where
  lesson : String
  line : String
  cefr : String
  texts : List (String × String)

/-- One line of the built model: `{ lineNo, texts }`
(`src/scripts.js` line 487). -/
structure ModelLine where
  lineNo : Option Int
  texts : List (String × String)
deriving DecidableEq

/-- One lesson of the built model: `{ lessonId, cefr, lines }`
(`src/scripts.js` line 479). -/
structure Lesson where
  lessonId : String
  cefr : String
  lines : List ModelLine
deriving DecidableEq

/-- The parts of the global `model` that `buildModel` constructs. -/
structure ModelOut where
  lessons : List Lesson
  lessonIds : List String
  languages : List String
deriving DecidableEq

/-- Stable insertion of `x` into a sorted list: `x` goes before the first
element `y` with `le x y`. -/
def jsInsert {α : Type} (le : α → α → Bool) (x : α) : List α → List α
  | [] => [x]
  | y :: ys => if le x y then x :: y :: ys else y :: jsInsert le x ys

/-- Model of `Array.prototype.sort` with a "precedes or ties" comparator:
a stable insertion sort. -/
def jsSortBy {α : Type} (le : α → α → Bool) : List α → List α
  | [] => []
  | x :: xs => jsInsert le x (jsSortBy le xs)

/-- Code-point comparison of character lists (model of `localeCompare`
being nonpositive, for the ASCII lesson identifiers at hand). -/
def charListLe : List Char → List Char → Bool
  | [], _ => true
  | _ :: _, [] => false
  | c :: cs, d :: ds => if c = d then charListLe cs ds else decide (c < d)

/-- The lesson-id comparator (`src/scripts.js` lines 490-492),
`Number(a) - Number(b) || a.localeCompare(b)`, as a "precedes or ties"
test: a `NaN` or zero difference falls through to `localeCompare`. -/
def lessonIdLe (a b : String) : Bool :=
  match jsNumber a, jsNumber b with
  | some m, some n =>
    if m = n then charListLe a.toList b.toList else decide (m < n)
  | _, _ => charListLe a.toList b.toList

/-- The line comparator (`src/scripts.js` line 496),
`x.lineNo - y.lineNo`, as a "precedes or ties" test; a `NaN` line number
gives a tie. -/
def lineLe (x y : ModelLine) : Bool :=
  match x.lineNo, y.lineNo with
  | some m, some n => decide (m ≤ n)
  | _, _ => true

/-- Append a line to the lesson keyed `lid`, creating the entry (with the
creating row's CEFR value) if absent; key insertion order is preserved
(model of the `byLesson` `Map`). -/
def upsertLine (lid cefr : String) (ln : ModelLine) :
    List (String × Lesson) → List (String × Lesson)
  | [] => [(lid, { lessonId := lid, cefr := cefr, lines := [ln] })]
  | (k, les) :: rest =>
    if k = lid then (k, { les with lines := les.lines ++ [ln] }) :: rest
    else (k, les) :: upsertLine lid cefr ln rest

/-- `Map.get` on the modelled `byLesson`. -/
def lookupLesson (m : List (String × Lesson)) (k : String) : Option Lesson :=
  (m.find? (fun p => p.1 == k)).map (fun p => p.2)

/-- The `texts` object of one row: each language column's cell, trimmed,
absent cells as the empty string (`src/scripts.js` lines 482-485). -/
def rowTexts (languageCols : List String) (r : Row) : List (String × String) :=
  languageCols.map (fun lang =>
    (lang,
      jsTrimS (((r.texts.find? (fun p => p.1 == lang)).map (fun p => p.2)).getD "")))

/-- The grouping loop of `buildModel` (`src/scripts.js` lines 472-488):
rows with an empty (trimmed) lesson id are skipped, all others appended
to their lesson in input order. -/
def rowsToLessons (languageCols : List String) :
    List Row → List (String × Lesson) → List (String × Lesson)
  | [], acc => acc
  | r :: rows, acc =>
    rowsToLessons languageCols rows
      (if jsTrimS r.lesson = "" then acc
       else upsertLine (jsTrimS r.lesson) (jsTrimS r.cefr)
         { lineNo := jsNumber r.line, texts := rowTexts languageCols r } acc)

/-- `buildModel` (`src/scripts.js` lines 456-502, the model-construction
part; the trailing lines 504-526 only repair the current selection
preferences): reject an empty table or a table without language columns,
group rows by lesson, sort lesson ids numerically then lexically, and
sort each lesson's lines by line number. -/
def buildModel (rows : List Row) : Except String ModelOut :=
  match rows with
  | [] => Except.error "CSV contains no rows."
  | r0 :: _ =>
    let languageCols := (r0.texts.map (fun p => p.1)).filter
      (fun c => !(["Lesson", "Line", "CEFR"].contains c))
    if languageCols.isEmpty then
      Except.error
        "No language columns found (expected columns besides Lesson/Line/CEFR)."
    else
      let byLesson := rowsToLessons languageCols rows []
      let lessonIds := jsSortBy lessonIdLe (byLesson.map (fun p => p.1))
      let lessons := lessonIds.map (fun lid =>
        match lookupLesson byLesson lid with
        | some les => { les with lines := jsSortBy lineLe les.lines }
        | none => { lessonId := lid, cefr := "", lines := [] })
      Except.ok { lessons := lessons, lessonIds := lessonIds,
                  languages := languageCols }

deriving instance DecidableEq for Except

end Readable

namespace Readable

/-! ### Lemmas about the JS string primitives -/

theorem jsSplit_ne_nil (sep : Char) (l : List Char) : jsSplit sep l ≠ [] := by
  cases l with
  | nil => simp [jsSplit]
  | cons c rest =>
    simp only [jsSplit]
    cases h : jsSplit sep rest with
    | nil => simp
    | cons p ps =>
      by_cases hc : c = sep <;> simp [hc]

theorem jsSplit_length (sep : Char) (l : List Char) :
    (jsSplit sep l).length = l.count sep + 1 := by
  induction l with
  | nil => simp [jsSplit]
  | cons c rest ih =>
    simp only [jsSplit]
    cases h : jsSplit sep rest with
    | nil => exact absurd h (jsSplit_ne_nil sep rest)
    | cons p ps =>
      rw [h] at ih
      by_cases hc : c = sep <;>
        simp_all [List.count_cons, ih]

theorem jsSplit_of_not_mem {sep : Char} {l : List Char} (h : sep ∉ l) :
    jsSplit sep l = [l] := by
  induction l with
  | nil => simp [jsSplit]
  | cons c rest ih =>
    simp only [List.mem_cons, not_or] at h
    simp only [jsSplit, ih h.2]
    simp [Ne.symm h.1]

theorem jsSplit_append_cons {sep : Char} {p : List Char} (h : sep ∉ p)
    (r : List Char) : jsSplit sep (p ++ sep :: r) = p :: jsSplit sep r := by
  induction p with
  | nil =>
    simp only [List.nil_append, jsSplit]
    cases hr : jsSplit sep r with
    | nil => exact absurd hr (jsSplit_ne_nil sep r)
    | cons q qs => simp
  | cons c cs ih =>
    simp only [List.mem_cons, not_or] at h
    simp only [List.cons_append, jsSplit, List.append_eq]
    rw [ih h.2]
    simp [Ne.symm h.1]

theorem jsSplit_jsJoin {sep : Char} :
    ∀ {parts : List (List Char)}, parts ≠ [] → (∀ p ∈ parts, sep ∉ p) →
      jsSplit sep (jsJoin sep parts) = parts
  | [], h, _ => absurd rfl h
  | [p], _, hp => by
      simp only [jsJoin]
      exact jsSplit_of_not_mem (hp p (by simp))
  | p :: q :: ps, _, hp => by
      simp only [jsJoin]
      rw [jsSplit_append_cons (hp p (by simp))]
      rw [jsSplit_jsJoin (by simp) (fun x hx => hp x (List.mem_cons_of_mem _ hx))]

theorem count_jsJoin {sep : Char} :
    ∀ {parts : List (List Char)}, parts ≠ [] → (∀ p ∈ parts, sep ∉ p) →
      (jsJoin sep parts).count sep = parts.length - 1
  | [], h, _ => absurd rfl h
  | [p], _, hp => by
      simp only [jsJoin, List.length_cons, List.length_nil]
      simp [List.count_eq_zero_of_not_mem (hp p (by simp))]
  | p :: q :: ps, _, hp => by
      simp only [jsJoin, List.count_append, List.count_cons]
      rw [@count_jsJoin sep (q :: ps) (by simp)
        (fun x hx => hp x (List.mem_cons_of_mem _ hx))]
      simp [List.count_eq_zero_of_not_mem (hp p (by simp))]

theorem hexDigit_ne_slash (n : Nat) : hexDigit n ≠ '/' := by
  by_cases hn : n < hexChars.length
  · have h16 : n < 16 := by simpa [hexChars] using hn
    unfold hexDigit
    interval_cases n <;> decide
  · unfold hexDigit
    rw [List.getD_eq_default _ _ (Nat.le_of_not_lt hn)]
    decide

theorem slash_not_mem_encodeChar (c : Char) : '/' ∉ encodeChar c := by
  unfold encodeChar
  by_cases h : uriUnreserved c
  · simp only [h, if_true]
    intro hm
    simp only [List.mem_singleton] at hm
    subst hm
    exact absurd h (by decide)
  · simp only [h, Bool.false_eq_true, if_false]
    intro hm
    rw [List.mem_flatten] at hm
    obtain ⟨l, hl, hml⟩ := hm
    rw [List.mem_map] at hl
    obtain ⟨b, _, rfl⟩ := hl
    simp only [pctEncodeByte, List.mem_cons, List.mem_singleton,
      List.not_mem_nil, or_false] at hml
    rcases hml with h1 | h2 | h3
    · exact absurd h1 (by decide)
    · exact hexDigit_ne_slash _ h2.symm
    · exact hexDigit_ne_slash _ h3.symm

theorem slash_not_mem_encodeURIComponent (s : List Char) :
    '/' ∉ encodeURIComponent s := by
  unfold encodeURIComponent
  intro hm
  rw [List.mem_flatten] at hm
  obtain ⟨l, hl, hml⟩ := hm
  rw [List.mem_map] at hl
  obtain ⟨c, _, rfl⟩ := hl
  exact slash_not_mem_encodeChar c hml

theorem jsSplit_buildAudioUrl (language sentenceText : List Char) :
    jsSplit '/' (buildAudioUrl language sentenceText) =
      (jsSplit '/' (audioPath language sentenceText)).map encodeURIComponent := by
  unfold buildAudioUrl
  apply jsSplit_jsJoin
  · simp [jsSplit_ne_nil]
  · intro p hp
    rw [List.mem_map] at hp
    obtain ⟨q, _, rfl⟩ := hp
    exact slash_not_mem_encodeURIComponent q

theorem count_audioPath (language sentenceText : List Char) :
    (audioPath language sentenceText).count '/' =
      2 + language.count '/' + sentenceText.count '/' := by
  simp only [audioPath, AUDIO_DIR, AUDIO_EXT, List.count_append, List.count_cons]
  simp
  omega

theorem count_buildAudioUrl (language sentenceText : List Char) :
    (buildAudioUrl language sentenceText).count '/' =
      2 + language.count '/' + sentenceText.count '/' := by
  unfold buildAudioUrl
  rw [count_jsJoin (by simp [jsSplit_ne_nil])
    (fun p hp => by
      rw [List.mem_map] at hp
      obtain ⟨q, _, rfl⟩ := hp
      exact slash_not_mem_encodeURIComponent q)]
  rw [List.length_map, jsSplit_length, count_audioPath]
  omega

/-- C7: `buildAudioUrl` is a deterministic pure string construction: it
yields the path `Audio/<language>/<sentenceText>.m4a` with each
slash-separated segment percent-encoded independently and the separators
left literal; in particular sentence `"Hello."` in language `"English"`
yields `"Audio/English/Hello..m4a"`, preserving the doubled terminal
punctuation. -/
theorem buildAudioUrl_spec :
    buildAudioUrl "English".toList "Hello.".toList = "Audio/English/Hello..m4a".toList
    ∧ ∀ language sentenceText : List Char,
        jsSplit '/' (buildAudioUrl language sentenceText) =
          (jsSplit '/' (audioPath language sentenceText)).map encodeURIComponent := by
  constructor
  · decide
  · exact jsSplit_buildAudioUrl

/-- C10: `buildAudioUrl` splits the assembled path on `/` before
percent-encoding, so a slash inside the sentence text stays a literal path
separator rather than becoming `%2F`: sentence `"a/b"` in language `"L"`
yields `"Audio/L/a/b.m4a"`, any sentence containing a slash yields more
than three path segments, and the number of literal slashes in the result
is exactly two plus the slashes of the language and sentence inputs. -/
theorem buildAudioUrl_slash_literal :
    buildAudioUrl "L".toList "a/b".toList = "Audio/L/a/b.m4a".toList
    ∧ (∀ language sentenceText : List Char, '/' ∈ sentenceText →
        3 < (jsSplit '/' (buildAudioUrl language sentenceText)).length)
    ∧ ∀ language sentenceText : List Char,
        (buildAudioUrl language sentenceText).count '/' =
          2 + language.count '/' + sentenceText.count '/' := by
  refine ⟨by decide, ?_, count_buildAudioUrl⟩
  intro language sentenceText hs
  rw [jsSplit_length, count_buildAudioUrl]
  have : 0 < sentenceText.count '/' := List.count_pos_iff.mpr hs
  omega

/-- Closed witness for the hypothesised conjunct of C10, at the concrete
input from the claim. -/
theorem buildAudioUrl_slash_literal_witness :
    3 < (jsSplit '/' (buildAudioUrl "L".toList "a/b".toList)).length :=
  buildAudioUrl_slash_literal.2.1 "L".toList "a/b".toList (by decide)

/-! ### Lemmas about the sequencer trace -/

theorem playLessonAux_no_cancel (urls : List (Option (List Char)))
    (T : Nat) (obs : Nat → Nat) (ok : Nat → Bool)
    (hobs : ∀ k, obs k = T) (hok : ∀ i, ok i = true) :
    ∀ i k, playLessonAux urls i k T obs ok = specOrderedTrace i urls.length := by
  induction urls with
  | nil => intro i k; simp [playLessonAux, specOrderedTrace]
  | cons u rest ih =>
    intro i k
    simp only [playLessonAux, hobs, hok, ne_eq, not_true_eq_false, if_false, if_true,
      ite_false, ite_true]
    cases rest with
    | nil => simp [specOrderedTrace]
    | cons v vs =>
      simp only [List.length_cons]
      rw [ih (i + 1) (k + 2)]
      simp [specOrderedTrace]

theorem playLessonAux_cancelled (urls : List (Option (List Char)))
    (i k T : Nat) (obs : Nat → Nat) (ok : Nat → Bool) (h : obs k ≠ T) :
    playLessonAux urls i k T obs ok = [] := by
  cases urls with
  | nil => rfl
  | cons u rest => simp [playLessonAux, h]

theorem playLessonAux_head (urls : List (Option (List Char)))
    (i k T : Nat) (obs : Nat → Nat) (ok : Nat → Bool) :
    playLessonAux urls i k T obs ok = [] ∨
      ∃ tl, playLessonAux urls i k T obs ok = SeqEvent.start i :: tl := by
  cases urls with
  | nil => exact Or.inl rfl
  | cons u rest =>
    by_cases h : obs k = T
    · by_cases hok : ok i = true
      · simp only [playLessonAux, h, hok, ne_eq, not_true_eq_false, if_false,
          ite_true, ite_false, if_true]
        exact Or.inr ⟨_, rfl⟩
      · simp only [playLessonAux, h, hok, ne_eq, not_true_eq_false, if_false,
          ite_true, ite_false, if_true, Bool.false_eq_true]
        exact Or.inr ⟨_, rfl⟩
    · exact Or.inl (playLessonAux_cancelled _ _ _ _ _ _ h)

theorem start_mem_playLessonAux {urls : List (Option (List Char))}
    {i k T j : Nat} {obs : Nat → Nat} {ok : Nat → Bool}
    (h : SeqEvent.start j ∈ playLessonAux urls i k T obs ok) : i ≤ j := by
  induction urls generalizing i k with
  | nil => simp [playLessonAux] at h
  | cons u rest ih =>
    by_cases hc : obs k = T
    · by_cases hok : ok i = true
      · simp only [playLessonAux, hc, hok, ne_eq, not_true_eq_false, if_false,
          ite_true, ite_false, if_true] at h
        rw [List.mem_cons, List.mem_cons] at h
        rcases h with h1 | h1 | h
        · exact le_of_eq (SeqEvent.start.inj h1).symm
        · exact absurd h1 (by simp)
        cases rest with
        | nil => simp at h
        | cons v vs =>
          by_cases hc2 : obs (k + 1) = T
          · simp only [hc2, ne_eq, not_true_eq_false, if_false, ite_false,
              ite_true, if_true] at h
            rw [List.mem_cons] at h
            rcases h with h1 | h
            · exact absurd h1 (by simp)
            · exact Nat.le_of_succ_le (ih h)
          · simp [hc2] at h
      · simp only [playLessonAux, hc, hok, ne_eq, not_true_eq_false, if_false,
          ite_true, ite_false, if_true, Bool.false_eq_true] at h
        rw [List.mem_cons, List.mem_singleton] at h
        rcases h with h1 | h1
        · exact le_of_eq (SeqEvent.start.inj h1).symm
        · exact absurd h1 (by simp)
    · rw [playLessonAux_cancelled _ _ _ _ _ _ hc] at h
      simp at h

theorem start_succ_infix {urls : List (Option (List Char))}
    {i k T j : Nat} {obs : Nat → Nat} {ok : Nat → Bool} (hij : i ≤ j)
    (h : SeqEvent.start (j + 1) ∈ playLessonAux urls i k T obs ok) :
    ∃ pre post, playLessonAux urls i k T obs ok =
      pre ++ SeqEvent.complete j :: SeqEvent.sleep 1000 ::
        SeqEvent.start (j + 1) :: post := by
  induction urls generalizing i k with
  | nil => simp [playLessonAux] at h
  | cons u rest ih =>
    by_cases hc : obs k = T
    · by_cases hok : ok i = true
      · simp only [playLessonAux, hc, hok, ne_eq, not_true_eq_false, if_false,
          ite_true, ite_false, if_true] at h ⊢
        have hne1 : SeqEvent.start (j + 1) ≠ SeqEvent.start i := by
          intro hEq
          have := SeqEvent.start.inj hEq
          omega
        rw [List.mem_cons, List.mem_cons] at h
        rcases h with h1 | h1 | h
        · exact absurd h1 hne1
        · exact absurd h1 (by simp)
        cases rest with
        | nil => simp at h
        | cons v vs =>
          by_cases hc2 : obs (k + 1) = T
          · simp only [hc2, ne_eq, not_true_eq_false, if_false, ite_false,
              ite_true, if_true] at h ⊢
            rw [List.mem_cons] at h
            rcases h with h1 | h
            · exact absurd h1 (by simp)
            rcases Nat.lt_or_ge j (i + 1) with hlt | hge
            · have hji : j = i := Nat.le_antisymm (Nat.lt_succ_iff.mp hlt) hij
              subst hji
              rcases playLessonAux_head (v :: vs) (j + 1) (k + 2) T obs ok with
                hnil | ⟨tl, htl⟩
              · rw [hnil] at h; simp at h
              · refine ⟨[SeqEvent.start j], tl, ?_⟩
                rw [htl]
                simp
            · obtain ⟨pre, post, hEq⟩ := ih hge h
              exact ⟨SeqEvent.start i :: SeqEvent.complete i ::
                SeqEvent.sleep 1000 :: pre, post, by simp [hEq]⟩
          · simp [hc2] at h
      · simp only [playLessonAux, hc, hok, ne_eq, not_true_eq_false, if_false,
          ite_true, ite_false, if_true, Bool.false_eq_true] at h
        rw [List.mem_cons, List.mem_singleton] at h
        rcases h with h1 | h1
        · have := SeqEvent.start.inj h1
          omega
        · exact absurd h1 (by simp)
    · rw [playLessonAux_cancelled _ _ _ _ _ _ hc] at h
      simp at h

/-- C2: a sequencer run with token `T` plays clips strictly in index
order: an uncancelled all-successful run over `n` clips produces exactly
the ideal trace (each clip started then completed, a fixed 1000 ms sleep
between consecutive clips, none after the last); in any run, clip `j+1`
begins only immediately after clip `j`'s completion signal and the
1000 ms delay; and a stale token at the top-of-iteration check or at the
pre-sleep check makes the loop return without starting any further
clip. -/
theorem playLessonInOrder_ordered :
    (∀ (urls : List (Option (List Char))) (T : Nat) (obs : Nat → Nat)
        (ok : Nat → Bool), (∀ k, obs k = T) → (∀ i, ok i = true) →
        playLessonInOrder urls T obs ok = specOrderedTrace 0 urls.length)
    ∧ (∀ (urls : List (Option (List Char))) (T : Nat) (obs : Nat → Nat)
        (ok : Nat → Bool) (j : Nat),
        SeqEvent.start (j + 1) ∈ playLessonInOrder urls T obs ok →
        ∃ pre post, playLessonInOrder urls T obs ok =
          pre ++ SeqEvent.complete j :: SeqEvent.sleep 1000 ::
            SeqEvent.start (j + 1) :: post)
    ∧ (∀ (urls : List (Option (List Char))) (T : Nat) (obs : Nat → Nat)
        (ok : Nat → Bool), obs 0 ≠ T → playLessonInOrder urls T obs ok = [])
    ∧ (∀ (u : Option (List Char)) (rest : List (Option (List Char)))
        (T : Nat) (obs : Nat → Nat) (ok : Nat → Bool),
        obs 0 = T → ok 0 = true → rest ≠ [] → obs 1 ≠ T →
        playLessonInOrder (u :: rest) T obs ok =
          [SeqEvent.start 0, SeqEvent.complete 0]) := by
  refine ⟨?_, ?_, ?_, ?_⟩
  · intro urls T obs ok hobs hok
    exact playLessonAux_no_cancel urls T obs ok hobs hok 0 0
  · intro urls T obs ok j h
    exact start_succ_infix (Nat.zero_le j) h
  · intro urls T obs ok h
    exact playLessonAux_cancelled urls 0 0 T obs ok h
  · intro u rest T obs ok h0 hok hrest h1
    cases rest with
    | nil => exact absurd rfl hrest
    | cons v vs =>
      simp [playLessonInOrder, playLessonAux, h0, hok, h1]

/-- Closed witness for C2: a concrete two-clip uncancelled run yields the
ideal ordered trace, and a concrete run cancelled before the first check
yields the empty trace. -/
theorem playLessonInOrder_ordered_witness :
    playLessonInOrder [some "a".toList, some "b".toList] 7 (fun _ => 7)
        (fun _ => true) = specOrderedTrace 0 2
    ∧ playLessonInOrder [some "a".toList] 7 (fun _ => 8) (fun _ => true) = [] :=
  ⟨playLessonInOrder_ordered.1 [some "a".toList, some "b".toList] 7
      (fun _ => 7) (fun _ => true) (fun _ => rfl) (fun _ => rfl),
    playLessonInOrder_ordered.2.2.1 [some "a".toList] 7 (fun _ => 8)
      (fun _ => true) (by decide)⟩

/-- C5 counterexample: the sequencer does not re-validate resolved
addresses.  Started directly on a list whose single target lacks a
resolved address (with a current token), `playLessonInOrder` is not a
no-op: it invokes `playOne` on the unresolved target (stopping current
audio, binding the slot, attempting playback) instead of rejecting the
run. -/
theorem playLessonInOrder_unresolved_not_noop :
    playLessonInOrder [none] 1 (fun _ => 1) (fun _ => false) =
        [SeqEvent.start 0, SeqEvent.fail 0]
    ∧ playLessonInOrder [none] 1 (fun _ => 1) (fun _ => false) ≠ [] := by
  constructor
  · rfl
  · intro h
    simp [playLessonInOrder, playLessonAux] at h

/-- C5 amended: the "every line must have audio" gating lives only in the
caller (`render`): the Play-lesson control is not offered when any target
lacks a resolved address, so such a run is never started from the UI; the
sequencer itself performs no re-validation — invoked directly on a
nonempty list under a current token it immediately starts clip 0, even
when that target is unresolved. -/
theorem lessonRun_gating :
    (∀ (urls : List (Option (List Char))) (ex : List Char → Bool),
        none ∈ urls → lessonButtonOffered urls ex = false)
    ∧ (∀ (u : Option (List Char)) (urls : List (Option (List Char)))
        (T : Nat) (obs : Nat → Nat) (ok : Nat → Bool), obs 0 = T →
        ∃ tl, playLessonInOrder (u :: urls) T obs ok =
          SeqEvent.start 0 :: tl) := by
  constructor
  · intro urls ex h
    have : urls.any (fun u =>
        match u with
        | none => true
        | some s => s.isEmpty) = true :=
      List.any_eq_true.mpr ⟨none, h, rfl⟩
    simp only [lessonButtonOffered, this, if_true]
  · intro u urls T obs ok h0
    rcases playLessonAux_head (u :: urls) 0 0 T obs ok with hnil | ⟨tl, htl⟩
    · exfalso
      by_cases hok : ok 0 = true <;>
        simp [playLessonAux, h0, hok] at hnil
    · exact ⟨tl, htl⟩

/-- Closed witness for C5's amended theorem at concrete inputs: a target
list with an unresolved entry never gets the Play-lesson control, and the
un-validating sequencer still starts clip 0 on it. -/
theorem lessonRun_gating_witness :
    lessonButtonOffered [some "a".toList, none] (fun _ => true) = false
    ∧ ∃ tl, playLessonInOrder [none] 1 (fun _ => 1) (fun _ => false) =
        SeqEvent.start 0 :: tl :=
  ⟨lessonRun_gating.1 [some "a".toList, none] (fun _ => true) (by decide),
    lessonRun_gating.2 none [] 1 (fun _ => 1) (fun _ => false) rfl⟩

/-! ### Lemmas about the `audioExists` cache -/

/-- The cache invariant: no address was probed twice and every probed
address is cached. -/
def ExInv (s : ExistsState) : Prop :=
  s.fetchLog.Nodup ∧ ∀ u ∈ s.fetchLog, (cacheGet s.cache u).isSome = true

theorem cacheGet_cons_ne {c : List (List Char × Bool)} {u v : List Char}
    {b : Bool} (h : v ≠ u) : cacheGet ((v, b) :: c) u = cacheGet c u := by
  simp [cacheGet, List.find?_cons, beq_iff_eq, h]

theorem cacheGet_cons_self (c : List (List Char × Bool)) (u : List Char)
    (b : Bool) : cacheGet ((u, b) :: c) u = some b := by
  simp [cacheGet, List.find?_cons]

theorem cacheGet_audioExists_mono {probe : Nat → FetchOut} {s : ExistsState}
    {u v : List Char} {b : Bool} (h : cacheGet s.cache u = some b) :
    cacheGet ((audioExists probe s v).2).cache u = some b := by
  unfold audioExists
  cases hv : cacheGet s.cache v with
  | some bv => exact h
  | none =>
    have hne : v ≠ u := by
      intro hEq
      rw [hEq, h] at hv
      exact absurd hv (by simp)
    cases probe s.fetchLog.length <;> simpa [cacheGet_cons_ne hne] using h

theorem cacheGet_runExists_mono {probe : Nat → FetchOut}
    {u : List Char} {b : Bool} :
    ∀ (reqs : List (List Char)) (s : ExistsState),
      cacheGet s.cache u = some b →
      cacheGet ((runExists probe reqs s).cache) u = some b
  | [], _, h => h
  | v :: reqs, _s, h =>
    cacheGet_runExists_mono reqs _ (cacheGet_audioExists_mono (v := v) h)

theorem audioExists_caches (probe : Nat → FetchOut) (s : ExistsState)
    (u : List Char) :
    cacheGet ((audioExists probe s u).2).cache u =
      some (audioExists probe s u).1 := by
  unfold audioExists
  cases hv : cacheGet s.cache u with
  | some bv => exact hv
  | none => cases probe s.fetchLog.length <;> simp [cacheGet_cons_self]

theorem audioExists_of_cached {probe : Nat → FetchOut} {s : ExistsState}
    {u : List Char} {b : Bool} (h : cacheGet s.cache u = some b) :
    audioExists probe s u = (b, s) := by
  unfold audioExists
  rw [h]

theorem exInv_audioExists {probe : Nat → FetchOut} {s : ExistsState}
    (hInv : ExInv s) (u : List Char) : ExInv (audioExists probe s u).2 := by
  obtain ⟨hnd, hmem⟩ := hInv
  unfold audioExists
  cases hv : cacheGet s.cache u with
  | some bv => exact ⟨hnd, hmem⟩
  | none =>
    have hnotin : u ∉ s.fetchLog := by
      intro hin
      have := hmem u hin
      rw [hv] at this
      exact absurd this (by simp)
    have key : ∀ b : Bool, ExInv ⟨(u, b) :: s.cache, s.fetchLog ++ [u]⟩ := by
      intro b
      constructor
      · rw [List.nodup_append]
        refine ⟨hnd, List.nodup_singleton u, ?_⟩
        intro x hx hxu
        rw [List.mem_singleton] at hxu
        subst hxu
        exact hnotin hx
      · intro w hw
        rcases List.mem_append.mp hw with hw1 | hw2
        · by_cases hwu : w = u
          · subst hwu
            simp [cacheGet_cons_self]
          · rw [cacheGet_cons_ne (Ne.symm hwu)]
            exact hmem w hw1
        · have hwu : w = u := by simpa using hw2
          subst hwu
          simp [cacheGet_cons_self]
    cases probe s.fetchLog.length with
    | resp ok => exact key ok
    | err => exact key false

theorem exInv_runExists {probe : Nat → FetchOut} :
    ∀ (reqs : List (List Char)) (s : ExistsState),
      ExInv s → ExInv (runExists probe reqs s)
  | [], _, h => h
  | v :: reqs, _s, h =>
    exInv_runExists reqs _ (exInv_audioExists h v)

theorem probeCount_eq_zero_of_not_mem {u : List Char} :
    ∀ {l : List (List Char)}, u ∉ l → probeCount u l = 0
  | [], _ => rfl
  | w :: l, h => by
    have hwu : ¬(w = u) := fun hEq => h (by rw [← hEq]; exact List.mem_cons_self w l)
    simp only [probeCount, hwu, if_false, Nat.zero_add]
    exact probeCount_eq_zero_of_not_mem fun hm => h (List.mem_cons_of_mem _ hm)

theorem probeCount_le_one_of_nodup {u : List Char} :
    ∀ {l : List (List Char)}, l.Nodup → probeCount u l ≤ 1 := by
  intro l h
  induction l with
  | nil => simp [probeCount]
  | cons w l ih =>
    rcases List.nodup_cons.mp h with ⟨hw, hl⟩
    by_cases hwu : w = u
    · subst hwu
      rw [probeCount, if_pos rfl, probeCount_eq_zero_of_not_mem hw]
    · rw [probeCount, if_neg hwu, Nat.zero_add]
      exact ih hl

/-- C8: `audioExists` issues at most one probe per distinct address for
the process lifetime: starting from the empty cache, any call sequence
probes each address at most once; once a call has returned a value for an
address, every later call for it returns the same value without changing
the state (no re-probe); and an uncached address whose probe errors (or
returns a non-success status) yields `false`, cached permanently under
the exact address. -/
theorem audioExists_memoizes :
    (∀ (probe : Nat → FetchOut) (reqs : List (List Char)) (u : List Char),
        probeCount u (runExists probe reqs initExistsState).fetchLog ≤ 1)
    ∧ (∀ (probe : Nat → FetchOut) (s : ExistsState) (u : List Char)
        (reqs : List (List Char)),
        audioExists probe (runExists probe reqs (audioExists probe s u).2) u =
          ((audioExists probe s u).1,
            runExists probe reqs (audioExists probe s u).2))
    ∧ (∀ (probe : Nat → FetchOut) (s : ExistsState) (u : List Char),
        cacheGet s.cache u = none →
        probe s.fetchLog.length = FetchOut.err →
        audioExists probe s u =
          (false, ⟨(u, false) :: s.cache, s.fetchLog ++ [u]⟩))
    ∧ (∀ (probe : Nat → FetchOut) (s : ExistsState) (u : List Char)
        (ok : Bool), cacheGet s.cache u = none →
        probe s.fetchLog.length = FetchOut.resp ok →
        audioExists probe s u =
          (ok, ⟨(u, ok) :: s.cache, s.fetchLog ++ [u]⟩)) := by
  refine ⟨?_, ?_, ?_, ?_⟩
  · intro probe reqs u
    have hInv : ExInv (runExists probe reqs initExistsState) := by
      refine exInv_runExists reqs initExistsState ⟨List.nodup_nil, ?_⟩
      intro v hv
      exact absurd hv (List.not_mem_nil v)
    exact probeCount_le_one_of_nodup hInv.1
  · intro probe s u reqs
    have hc : cacheGet ((runExists probe reqs (audioExists probe s u).2).cache) u =
        some (audioExists probe s u).1 :=
      cacheGet_runExists_mono reqs _ (audioExists_caches probe s u)
    exact audioExists_of_cached hc
  · intro probe s u hnone herr
    unfold audioExists
    rw [hnone, herr]
  · intro probe s u ok hnone hresp
    unfold audioExists
    rw [hnone, hresp]

/-- Closed witness for C8's hypothesised conjuncts at concrete inputs: on
the empty cache a probe that errors returns `false` and caches it, and a
probe that responds with success returns `true` and caches it. -/
theorem audioExists_memoizes_witness :
    audioExists (fun _ => FetchOut.err) initExistsState "x".toList =
        (false, ⟨[("x".toList, false)], ["x".toList]⟩)
    ∧ audioExists (fun _ => FetchOut.resp true) initExistsState "x".toList =
        (true, ⟨[("x".toList, true)], ["x".toList]⟩) :=
  ⟨audioExists_memoizes.2.2.1 (fun _ => FetchOut.err) initExistsState
      "x".toList rfl rfl,
    audioExists_memoizes.2.2.2 (fun _ => FetchOut.resp true) initExistsState
      "x".toList true rfl rfl⟩

/-! ### Lemmas about the single-clip player state -/

theorem updF_self (f : Nat → Bool) (x : Nat) (v : Bool) : updF f x v x = v := by
  simp [updF]

theorem updF_of_ne (f : Nat → Bool) (x : Nat) (v : Bool) {y : Nat}
    (h : y ≠ x) : updF f x v y = f y := by
  simp [updF, h]

theorem stopCurrentAudio_curAudio (s : PlayerState) :
    (stopCurrentAudio s).curAudio = none := by
  cases hA : s.curAudio <;> cases hB : s.curBtn <;>
    simp [stopCurrentAudio, hA, hB]

theorem stopCurrentAudio_curBtn (s : PlayerState) :
    (stopCurrentAudio s).curBtn = none := by
  cases hA : s.curAudio <;> cases hB : s.curBtn <;>
    simp [stopCurrentAudio, hA, hB]

theorem stopCurrentAudio_running (s : PlayerState) :
    (stopCurrentAudio s).running = s.running := by
  cases hA : s.curAudio <;> cases hB : s.curBtn <;>
    simp [stopCurrentAudio, hA, hB]

theorem stopCurrentAudio_token (s : PlayerState) :
    (stopCurrentAudio s).token = s.token := by
  cases hA : s.curAudio <;> cases hB : s.curBtn <;>
    simp [stopCurrentAudio, hA, hB]

theorem stopCurrentAudio_lessonBtnUI (s : PlayerState) :
    (stopCurrentAudio s).lessonBtnUI = s.lessonBtnUI := by
  cases hA : s.curAudio <;> cases hB : s.curBtn <;>
    simp [stopCurrentAudio, hA, hB]

theorem stopCurrentAudio_audioMissing (s : PlayerState) :
    (stopCurrentAudio s).audioMissing = s.audioMissing := by
  cases hA : s.curAudio <;> cases hB : s.curBtn <;>
    simp [stopCurrentAudio, hA, hB]

theorem stopCurrentAudio_audioPlaying (s : PlayerState) (x : Nat) :
    (stopCurrentAudio s).audioPlaying x =
      if s.curAudio = some x then false else s.audioPlaying x := by
  cases hA : s.curAudio with
  | none => cases hB : s.curBtn <;> simp [stopCurrentAudio, hA, hB]
  | some c =>
    have hres : (stopCurrentAudio s).audioPlaying = updF s.audioPlaying c false := by
      cases hB : s.curBtn <;> simp [stopCurrentAudio, hA, hB]
    rw [hres]
    by_cases hxc : x = c
    · subst hxc
      rw [updF_self, if_pos rfl]
    · rw [updF_of_ne _ _ _ hxc,
        if_neg (fun hEq => hxc (Option.some_inj.mp hEq).symm)]

theorem stopCurrentAudio_btnPlaying (s : PlayerState) (y : Nat) :
    (stopCurrentAudio s).btnPlaying y =
      if s.curBtn = some y then false else s.btnPlaying y := by
  cases hB : s.curBtn with
  | none =>
    have hres : (stopCurrentAudio s).btnPlaying = s.btnPlaying := by
      cases hA : s.curAudio <;> simp [stopCurrentAudio, hA, hB]
    rw [hres]
    simp
  | some d =>
    have hres : (stopCurrentAudio s).btnPlaying = updF s.btnPlaying d false := by
      cases hA : s.curAudio <;> simp [stopCurrentAudio, hA, hB]
    rw [hres]
    by_cases hyd : y = d
    · subst hyd
      rw [updF_self, if_pos rfl]
    · rw [updF_of_ne _ _ _ hyd,
        if_neg (fun hEq => hyd (Option.some_inj.mp hEq).symm)]

theorem stopped_all_of_slotInv {s : PlayerState} (h : SlotInv s) :
    (∀ x, (stopCurrentAudio s).audioPlaying x = false) ∧
      ∀ y, (stopCurrentAudio s).btnPlaying y = false := by
  constructor
  · intro x
    rw [stopCurrentAudio_audioPlaying]
    by_cases hc : s.curAudio = some x
    · rw [if_pos hc]
    · rw [if_neg hc]
      cases hp : s.audioPlaying x
      · rfl
      · exact absurd (h.1 x hp) hc
  · intro y
    rw [stopCurrentAudio_btnPlaying]
    by_cases hc : s.curBtn = some y
    · rw [if_pos hc]
    · rw [if_neg hc]
      cases hp : s.btnPlaying y
      · rfl
      · exact absurd (h.2 y hp) hc

theorem slotInv_stopCurrentAudio {s : PlayerState} (h : SlotInv s) :
    SlotInv (stopCurrentAudio s) := by
  obtain ⟨hA, hB⟩ := stopped_all_of_slotInv h
  constructor
  · intro x hx
    rw [hA x] at hx
    exact absurd hx (by simp)
  · intro y hy
    rw [hB y] at hy
    exact absurd hy (by simp)

theorem stopLessonPlayback_token (s : PlayerState) :
    (stopLessonPlayback s).token = s.token + 1 := by
  unfold stopLessonPlayback
  rw [stopCurrentAudio_token]

theorem stopLessonPlayback_running (s : PlayerState) :
    (stopLessonPlayback s).running = false := by
  unfold stopLessonPlayback
  rw [stopCurrentAudio_running]

theorem stopLessonPlayback_curAudio (s : PlayerState) :
    (stopLessonPlayback s).curAudio = none := by
  unfold stopLessonPlayback
  rw [stopCurrentAudio_curAudio]

theorem stopLessonPlayback_curBtn (s : PlayerState) :
    (stopLessonPlayback s).curBtn = none := by
  unfold stopLessonPlayback
  rw [stopCurrentAudio_curBtn]

theorem stopLessonPlayback_lessonBtnUI (s : PlayerState) :
    (stopLessonPlayback s).lessonBtnUI = false := rfl

theorem stopLessonPlayback_audioMissing (s : PlayerState) :
    (stopLessonPlayback s).audioMissing = s.audioMissing := by
  unfold stopLessonPlayback
  rw [stopCurrentAudio_audioMissing]

theorem stopLessonPlayback_audioPlaying (s : PlayerState) (x : Nat) :
    (stopLessonPlayback s).audioPlaying x =
      if s.curAudio = some x then false else s.audioPlaying x := by
  unfold stopLessonPlayback
  rw [stopCurrentAudio_audioPlaying]

theorem stopLessonPlayback_btnPlaying (s : PlayerState) (y : Nat) :
    (stopLessonPlayback s).btnPlaying y =
      if s.curBtn = some y then false else s.btnPlaying y := by
  unfold stopLessonPlayback
  rw [stopCurrentAudio_btnPlaying]

theorem slotInv_stopLessonPlayback {s : PlayerState} (h : SlotInv s) :
    SlotInv (stopLessonPlayback s) := by
  have h2 : SlotInv { s with token := s.token + 1, running := false } :=
    ⟨fun x hx => h.1 x hx, fun y hy => h.2 y hy⟩
  have h3 := slotInv_stopCurrentAudio h2
  exact ⟨fun x hx => h3.1 x hx, fun y hy => h3.2 y hy⟩

theorem stopLessonPlayback_all {s : PlayerState} (h : SlotInv s) :
    (∀ x, (stopLessonPlayback s).audioPlaying x = false) ∧
      ∀ y, (stopLessonPlayback s).btnPlaying y = false := by
  have h2 : SlotInv { s with token := s.token + 1, running := false } :=
    ⟨fun x hx => h.1 x hx, fun y hy => h.2 y hy⟩
  obtain ⟨hA, hB⟩ := stopped_all_of_slotInv h2
  exact ⟨fun x => hA x, fun y => hB y⟩

theorem playOne_curAudio (a : Nat) (b : Option Nat) (ok : Bool)
    (s : PlayerState) : (playOne a b ok s).curAudio = some a := by
  unfold playOne
  cases b <;> cases ok <;> simp

theorem playOne_curBtn (a : Nat) (b : Option Nat) (ok : Bool)
    (s : PlayerState) : (playOne a b ok s).curBtn = b := by
  unfold playOne
  cases b <;> cases ok <;> simp

theorem playOne_token (a : Nat) (b : Option Nat) (ok : Bool)
    (s : PlayerState) : (playOne a b ok s).token = s.token := by
  unfold playOne
  cases b <;> cases ok <;> simp [stopCurrentAudio_token]

theorem playOne_running (a : Nat) (b : Option Nat) (ok : Bool)
    (s : PlayerState) : (playOne a b ok s).running = s.running := by
  unfold playOne
  cases b <;> cases ok <;> simp [stopCurrentAudio_running]

theorem playOne_audioMissing (a : Nat) (b : Option Nat) (ok : Bool)
    (s : PlayerState) : (playOne a b ok s).audioMissing = s.audioMissing := by
  unfold playOne
  cases b <;> cases ok <;> simp [stopCurrentAudio_audioMissing]

theorem playOne_audioPlaying_true (a : Nat) (b : Option Nat)
    (s : PlayerState) (x : Nat) :
    (playOne a b true s).audioPlaying x =
      if x = a then true else (stopCurrentAudio s).audioPlaying x := by
  unfold playOne
  cases b <;> simp [updF]

theorem playOne_audioPlaying_false (a : Nat) (b : Option Nat)
    (s : PlayerState) (x : Nat) :
    (playOne a b false s).audioPlaying x =
      (stopCurrentAudio s).audioPlaying x := by
  unfold playOne
  cases b <;> simp

theorem playOne_btnPlaying (a : Nat) (b : Option Nat) (ok : Bool)
    (s : PlayerState) (y : Nat) :
    (playOne a b ok s).btnPlaying y =
      match b with
      | some btn => if y = btn then true else (stopCurrentAudio s).btnPlaying y
      | none => (stopCurrentAudio s).btnPlaying y := by
  unfold playOne
  cases b <;> cases ok <;> simp [updF]

theorem slotInv_playOne {s : PlayerState} (h : SlotInv s) (a : Nat)
    (b : Option Nat) (ok : Bool) : SlotInv (playOne a b ok s) := by
  obtain ⟨hA, hB⟩ := stopped_all_of_slotInv h
  constructor
  · intro x hx
    rw [playOne_curAudio]
    cases ok with
    | false =>
      rw [playOne_audioPlaying_false, hA x] at hx
      exact absurd hx (by simp)
    | true =>
      rw [playOne_audioPlaying_true] at hx
      by_cases hxa : x = a
      · rw [hxa]
      · rw [if_neg hxa, hA x] at hx
        exact absurd hx (by simp)
  · intro y hy
    rw [playOne_curBtn]
    rw [playOne_btnPlaying] at hy
    cases b with
    | none =>
      rw [hB y] at hy
      exact absurd hy (by simp)
    | some btn =>
      by_cases hyb : y = btn
      · rw [hyb]
      · simp only [if_neg hyb] at hy
        rw [hB y] at hy
        exact absurd hy (by simp)

theorem slotInv_stopIfOther {s : PlayerState} (h : SlotInv s) (a : Nat) :
    SlotInv (stopIfOther a s) := by
  unfold stopIfOther
  cases hA : s.curAudio with
  | none => exact h
  | some c =>
    show SlotInv (if c ≠ a then stopCurrentAudio s else s)
    by_cases hca : c ≠ a
    · rw [if_pos hca]
      exact slotInv_stopCurrentAudio h
    · rw [if_neg hca]
      exact h

theorem stopIfOther_other_stopped {s : PlayerState} (h : SlotInv s) (a : Nat) :
    ∀ c, c ≠ a → (stopIfOther a s).audioPlaying c = false := by
  intro c hca
  unfold stopIfOther
  cases hA : s.curAudio with
  | none =>
    cases hp : s.audioPlaying c
    · rfl
    · have := h.1 c hp
      rw [hA] at this
      exact absurd this (by simp)
  | some d =>
    show (if d ≠ a then stopCurrentAudio s else s).audioPlaying c = false
    by_cases hda : d ≠ a
    · rw [if_pos hda, stopCurrentAudio_audioPlaying]
      by_cases hdc : s.curAudio = some c
      · rw [if_pos hdc]
      · rw [if_neg hdc]
        cases hp : s.audioPlaying c
        · rfl
        · exact absurd (h.1 c hp) hdc
    · rw [if_neg hda]
      cases hp : s.audioPlaying c
      · rfl
      · have := h.1 c hp
        rw [hA] at this
        have hdc : d = c := Option.some_inj.mp this
        rw [Decidable.not_not] at hda
        exact absurd (hdc ▸ hda) hca

theorem slotInv_manualToggleOrStart {s : PlayerState} (h : SlotInv s)
    (a b : Nat) (ok : Bool) : SlotInv (manualToggleOrStart a b ok s) := by
  unfold manualToggleOrStart
  by_cases ht : s.curAudio = some a ∧ s.audioPlaying a = true
  · rw [if_pos ht]
    exact slotInv_stopCurrentAudio h
  · rw [if_neg ht]
    obtain ⟨hA, hB⟩ := stopped_all_of_slotInv h
    cases ok with
    | true =>
      simp only [if_true]
      constructor
      · intro x hx
        simp only [updF] at hx ⊢
        by_cases hxa : x = a
        · simp [hxa]
        · rw [if_neg hxa, hA x] at hx
          exact absurd hx (by simp)
      · intro y hy
        simp only [updF] at hy ⊢
        by_cases hyb : y = b
        · simp [hyb]
        · rw [if_neg hyb, hB y] at hy
          exact absurd hy (by simp)
    | false =>
      simp only [Bool.false_eq_true, if_false]
      apply slotInv_stopCurrentAudio
      constructor
      · intro x hx
        simp only [] at hx
        rw [hA x] at hx
        exact absurd hx (by simp)
      · intro y hy
        simp only [updF] at hy
        by_cases hyb : y = b
        · simp [hyb]
        · rw [if_neg hyb, hB y] at hy
          exact absurd hy (by simp)

theorem slotInv_manualClickBody {s : PlayerState} (h : SlotInv s)
    (a b : Nat) (ok : Bool) : SlotInv (manualClickBody a b ok s) :=
  slotInv_manualToggleOrStart (slotInv_stopIfOther h a) a b ok

theorem slotInv_manualClick {s : PlayerState} (h : SlotInv s)
    (a b : Nat) (ok : Bool) : SlotInv (manualClick a b ok s) := by
  unfold manualClick
  by_cases hr : s.running
  · rw [if_pos hr]
    exact slotInv_manualClickBody (slotInv_stopLessonPlayback h) a b ok
  · rw [if_neg hr]
    exact slotInv_manualClickBody h a b ok

theorem slotInv_step (e : Ev) {s : PlayerState} (h : SlotInv s) :
    SlotInv (step e s) := by
  cases e with
  | manual a b ok => exact slotInv_manualClick h a b ok
  | lessonClick =>
    show SlotInv (if s.running = true then stopLessonPlayback s
      else { s with running := true, token := s.token + 1, lessonBtnUI := true })
    by_cases hr : s.running = true
    · rw [if_pos hr]
      exact slotInv_stopLessonPlayback h
    · rw [if_neg hr]
      exact ⟨fun x hx => h.1 x hx, fun y hy => h.2 y hy⟩
  | seqPlay T a b ok =>
    show SlotInv (if s.token = T then playOne a b ok s else s)
    by_cases hT : s.token = T
    · rw [if_pos hT]
      exact slotInv_playOne h a b ok
    · rw [if_neg hT]
      exact h
  | ended a =>
    have h1 : SlotInv { s with audioPlaying := updF s.audioPlaying a false } := by
      constructor
      · intro x hx
        simp only [updF] at hx
        by_cases hxa : x = a
        · rw [if_pos hxa] at hx
          exact absurd hx (by simp)
        · rw [if_neg hxa] at hx
          exact h.1 x hx
      · intro y hy
        exact h.2 y hy
    show SlotInv (if s.curAudio = some a then
        stopCurrentAudio { s with audioPlaying := updF s.audioPlaying a false }
      else { s with audioPlaying := updF s.audioPlaying a false })
    by_cases hc : s.curAudio = some a
    · rw [if_pos hc]
      exact slotInv_stopCurrentAudio h1
    · rw [if_neg hc]
      exact h1
  | errored a =>
    have h1 : SlotInv { s with audioPlaying := updF s.audioPlaying a false
                               audioMissing := updF s.audioMissing a true } := by
      constructor
      · intro x hx
        simp only [updF] at hx
        by_cases hxa : x = a
        · rw [if_pos hxa] at hx
          exact absurd hx (by simp)
        · rw [if_neg hxa] at hx
          exact h.1 x hx
      · intro y hy
        exact h.2 y hy
    show SlotInv (if s.curAudio = some a then
        stopCurrentAudio { s with audioPlaying := updF s.audioPlaying a false
                                  audioMissing := updF s.audioMissing a true }
      else { s with audioPlaying := updF s.audioPlaying a false
                    audioMissing := updF s.audioMissing a true })
    by_cases hc : s.curAudio = some a
    · rw [if_pos hc]
      exact slotInv_stopCurrentAudio h1
    · rw [if_neg hc]
      exact h1
  | runFinally T =>
    show SlotInv (if s.token = T then
        stopCurrentAudio { s with running := false, lessonBtnUI := false }
      else s)
    by_cases hT : s.token = T
    · rw [if_pos hT]
      exact slotInv_stopCurrentAudio
        ⟨fun x hx => h.1 x hx, fun y hy => h.2 y hy⟩
    · rw [if_neg hT]
      exact h
  | uiCancel => exact slotInv_stopLessonPlayback h

theorem slotInv_init : SlotInv initPlayerState := by
  constructor
  · intro x hx
    exact absurd hx (by simp [initPlayerState])
  · intro y hy
    exact absurd hy (by simp [initPlayerState])

theorem slotInv_foldl : ∀ (evs : List Ev) (s : PlayerState), SlotInv s →
    SlotInv (evs.foldl (fun t e => step e t) s)
  | [], _, h => h
  | e :: evs, s, h => slotInv_foldl evs (step e s) (slotInv_step e h)

theorem slotInv_run (evs : List Ev) : SlotInv (run evs) :=
  slotInv_foldl evs initPlayerState slotInv_init

theorem stopIfOther_token (a : Nat) (s : PlayerState) :
    (stopIfOther a s).token = s.token := by
  unfold stopIfOther
  cases hA : s.curAudio with
  | none => rfl
  | some c =>
    show (if c ≠ a then stopCurrentAudio s else s).token = s.token
    by_cases hca : c ≠ a
    · rw [if_pos hca, stopCurrentAudio_token]
    · rw [if_neg hca]

theorem stopIfOther_running (a : Nat) (s : PlayerState) :
    (stopIfOther a s).running = s.running := by
  unfold stopIfOther
  cases hA : s.curAudio with
  | none => rfl
  | some c =>
    show (if c ≠ a then stopCurrentAudio s else s).running = s.running
    by_cases hca : c ≠ a
    · rw [if_pos hca, stopCurrentAudio_running]
    · rw [if_neg hca]

theorem manualToggleOrStart_token (a b : Nat) (ok : Bool) (s : PlayerState) :
    (manualToggleOrStart a b ok s).token = s.token := by
  unfold manualToggleOrStart
  by_cases ht : s.curAudio = some a ∧ s.audioPlaying a = true
  · rw [if_pos ht, stopCurrentAudio_token]
  · rw [if_neg ht]
    cases ok with
    | true =>
      rw [if_pos rfl]
      show (stopCurrentAudio s).token = s.token
      rw [stopCurrentAudio_token]
    | false =>
      rw [if_neg (by simp)]
      rw [stopCurrentAudio_token]
      show (stopCurrentAudio s).token = s.token
      rw [stopCurrentAudio_token]

theorem manualToggleOrStart_running (a b : Nat) (ok : Bool) (s : PlayerState) :
    (manualToggleOrStart a b ok s).running = s.running := by
  unfold manualToggleOrStart
  by_cases ht : s.curAudio = some a ∧ s.audioPlaying a = true
  · rw [if_pos ht, stopCurrentAudio_running]
  · rw [if_neg ht]
    cases ok with
    | true =>
      rw [if_pos rfl]
      show (stopCurrentAudio s).running = s.running
      rw [stopCurrentAudio_running]
    | false =>
      rw [if_neg (by simp)]
      rw [stopCurrentAudio_running]
      show (stopCurrentAudio s).running = s.running
      rw [stopCurrentAudio_running]

theorem manualClickBody_token (a b : Nat) (ok : Bool) (s : PlayerState) :
    (manualClickBody a b ok s).token = s.token := by
  unfold manualClickBody
  rw [manualToggleOrStart_token, stopIfOther_token]

theorem manualClickBody_running (a b : Nat) (ok : Bool) (s : PlayerState) :
    (manualClickBody a b ok s).running = s.running := by
  unfold manualClickBody
  rw [manualToggleOrStart_running, stopIfOther_running]

theorem manualToggleOrStart_other {t : PlayerState} (h : SlotInv t)
    (a b : Nat) (ok : Bool) {c : Nat} (hca : c ≠ a)
    (_hc : t.audioPlaying c = false) :
    (manualToggleOrStart a b ok t).audioPlaying c = false := by
  unfold manualToggleOrStart
  obtain ⟨hA, hB⟩ := stopped_all_of_slotInv h
  by_cases htg : t.curAudio = some a ∧ t.audioPlaying a = true
  · rw [if_pos htg]
    exact hA c
  · rw [if_neg htg]
    cases ok with
    | true =>
      rw [if_pos rfl]
      show updF (stopCurrentAudio t).audioPlaying a true c = false
      rw [updF_of_ne _ _ _ hca]
      exact hA c
    | false =>
      rw [if_neg (by simp), stopCurrentAudio_audioPlaying]
      by_cases hcc : (some a : Option Nat) = some c
      · exact absurd (Option.some_inj.mp hcc).symm hca
      · rw [if_neg hcc]
        exact hA c

theorem manualClickBody_other {s : PlayerState} (h : SlotInv s)
    (a b : Nat) (ok : Bool) {c : Nat} (hca : c ≠ a) :
    (manualClickBody a b ok s).audioPlaying c = false :=
  manualToggleOrStart_other (slotInv_stopIfOther h a) a b ok hca
    (stopIfOther_other_stopped h a c hca)

theorem stopIfOther_of_self {s : PlayerState} {a : Nat}
    (h : s.curAudio = some a) : stopIfOther a s = s := by
  unfold stopIfOther
  rw [h]
  show (if a ≠ a then stopCurrentAudio s else s) = s
  rw [if_neg (by simp)]

theorem stopIfOther_of_none {s : PlayerState} (a : Nat)
    (h : s.curAudio = none) : stopIfOther a s = s := by
  unfold stopIfOther
  rw [h]

theorem stopIfOther_of_other {s : PlayerState} {a c : Nat}
    (h : s.curAudio = some c) (hca : c ≠ a) :
    stopIfOther a s = stopCurrentAudio s := by
  unfold stopIfOther
  rw [h]
  show (if c ≠ a then stopCurrentAudio s else s) = stopCurrentAudio s
  rw [if_pos hca]

theorem manualToggleOrStart_failed (a b : Nat) (t : PlayerState)
    (hng : ¬(t.curAudio = some a ∧ t.audioPlaying a = true)) :
    (manualToggleOrStart a b false t).audioMissing a = true
    ∧ (manualToggleOrStart a b false t).curAudio = none
    ∧ (manualToggleOrStart a b false t).btnPlaying b = false := by
  unfold manualToggleOrStart
  rw [if_neg hng, if_neg (by simp)]
  refine ⟨?_, stopCurrentAudio_curAudio _, ?_⟩
  · rw [stopCurrentAudio_audioMissing]
    show updF (stopCurrentAudio t).audioMissing a true a = true
    rw [updF_self]
  · rw [stopCurrentAudio_btnPlaying]
    rw [if_pos rfl]

/-- C1: at every instant, under any interleaving of the modelled events
(manual clicks, lesson-button clicks, sequencer iterations, natural
completions, element errors, run cleanup, UI cancellations) from page
load, at most one audio element is playing, at most one sentence button
shows the playing state, and anything active is owned by the single
`currentlyPlaying` slot — every operation that installs a new pair stops
the previous one and clears the slot first. -/
theorem atMostOne_playback_session (evs : List Ev) :
    (∀ x y, (run evs).audioPlaying x = true → (run evs).audioPlaying y = true →
      x = y)
    ∧ (∀ x y, (run evs).btnPlaying x = true → (run evs).btnPlaying y = true →
      x = y)
    ∧ (∀ x, (run evs).audioPlaying x = true → (run evs).curAudio = some x)
    ∧ (∀ y, (run evs).btnPlaying y = true → (run evs).curBtn = some y) := by
  have h := slotInv_run evs
  refine ⟨?_, ?_, h.1, h.2⟩
  · intro x y hx hy
    have h1 := h.1 x hx
    have h2 := h.1 y hy
    rw [h1] at h2
    exact Option.some_inj.mp h2
  · intro x y hx hy
    have h1 := h.2 x hx
    have h2 := h.2 y hy
    rw [h1] at h2
    exact Option.some_inj.mp h2

/-- Closed witness for C1: after a successful manual click on clip 0 with
button 5, clip 0 is playing and the theorem yields that the slot owns
it. -/
theorem atMostOne_playback_session_witness :
    (run [Ev.manual 0 5 true]).audioPlaying 0 = true
    ∧ (run [Ev.manual 0 5 true]).curAudio = some 0 :=
  ⟨by decide,
    (atMostOne_playback_session [Ev.manual 0 5 true]).2.2.1 0 (by decide)⟩

/-- C3: when a sequencer run is active (`running = true`), the manual
click handler invokes `stopLessonPlayback()` first — the handler equals
its body applied to the cancelled state, the token is incremented by one,
the run is Idle afterwards, and (in any reachable state) every clip other
than the clicked one is stopped. -/
theorem manual_cancels_run_first (a b : Nat) (ok : Bool) (s : PlayerState)
    (hr : s.running = true) :
    manualClick a b ok s = manualClickBody a b ok (stopLessonPlayback s)
    ∧ (manualClick a b ok s).token = s.token + 1
    ∧ (manualClick a b ok s).running = false
    ∧ (SlotInv s → ∀ c, c ≠ a → (manualClick a b ok s).audioPlaying c = false) := by
  have hEq : manualClick a b ok s = manualClickBody a b ok (stopLessonPlayback s) := by
    unfold manualClick manualClickBody
    rw [if_pos hr]
  refine ⟨hEq, ?_, ?_, ?_⟩
  · rw [hEq, manualClickBody_token, stopLessonPlayback_token]
  · rw [hEq, manualClickBody_running, stopLessonPlayback_running]
  · intro hInv c hc
    rw [hEq]
    exact manualClickBody_other (slotInv_stopLessonPlayback hInv) a b ok hc

/-- Closed witness for C3 with the sequencer running (one lesson-button
click from page load). -/
theorem manual_cancels_run_first_witness :
    manualClick 0 5 true (run [Ev.lessonClick]) =
      manualClickBody 0 5 true (stopLessonPlayback (run [Ev.lessonClick]))
    ∧ (manualClick 0 5 true (run [Ev.lessonClick])).running = false :=
  ⟨(manual_cancels_run_first 0 5 true (run [Ev.lessonClick]) (by decide)).1,
    (manual_cancels_run_first 0 5 true (run [Ev.lessonClick]) (by decide)).2.2.1⟩

/-- C4: `stopLessonPlayback` always increments the cancellation token,
forces Idle, clears the slot (zero playback sessions remain), stops the
slot's clip, restores its button and the lesson button to the idle
visual state — and in any reachable state (slot invariant) no audio at
all is left playing. -/
theorem stopLessonPlayback_cancels (s : PlayerState) :
    (stopLessonPlayback s).token = s.token + 1
    ∧ (stopLessonPlayback s).running = false
    ∧ (stopLessonPlayback s).curAudio = none
    ∧ (stopLessonPlayback s).curBtn = none
    ∧ (stopLessonPlayback s).lessonBtnUI = false
    ∧ (∀ a, s.curAudio = some a → (stopLessonPlayback s).audioPlaying a = false)
    ∧ (∀ b, s.curBtn = some b → (stopLessonPlayback s).btnPlaying b = false)
    ∧ (SlotInv s → ∀ x, (stopLessonPlayback s).audioPlaying x = false) := by
  refine ⟨stopLessonPlayback_token s, stopLessonPlayback_running s,
    stopLessonPlayback_curAudio s, stopLessonPlayback_curBtn s,
    stopLessonPlayback_lessonBtnUI s, ?_, ?_, ?_⟩
  · intro a ha
    rw [stopLessonPlayback_audioPlaying, if_pos ha]
  · intro b hb
    rw [stopLessonPlayback_btnPlaying, if_pos hb]
  · intro hInv x
    exact (stopLessonPlayback_all hInv).1 x

/-- Closed witness for C4 in a state where clip 0 is playing on button 5
(reached by one manual click): cancelling stops the clip and resets the
button. -/
theorem stopLessonPlayback_cancels_witness :
    (stopLessonPlayback (run [Ev.manual 0 5 true])).audioPlaying 0 = false
    ∧ (stopLessonPlayback (run [Ev.manual 0 5 true])).btnPlaying 5 = false :=
  ⟨(stopLessonPlayback_cancels (run [Ev.manual 0 5 true])).2.2.2.2.2.1 0
      (by decide),
    (stopLessonPlayback_cancels (run [Ev.manual 0 5 true])).2.2.2.2.2.2.1 5
      (by decide)⟩

/-- C6 counterexample: in the sequencer play path a failed play attempt
does not flag the clip and does not stop the slot at this layer: from the
initial state, `playOne` on clip 0 whose play call rejects leaves the
missing flag unset and the slot still bound to clip 0 — contradicting the
claim that in both paths the clip is flagged permanently unavailable and
`stop()` is invoked. -/
theorem playOne_failure_not_flagged :
    (playOne 0 none false initPlayerState).audioMissing 0 = false
    ∧ (playOne 0 none false initPlayerState).curAudio = some 0 := by
  exact ⟨by decide, by decide⟩

/-- C6 amended: the two paths handle a failed play start differently.  In
the manual path (whenever the play attempt is reached, i.e. the click is
not a toggle-stop) the clip is flagged permanently unavailable,
`stopCurrentAudio` restores idle UI and the failure is swallowed.  In the
sequencer path `playOne` leaves the missing flag unchanged and the slot
bound; the rejection propagates to the lesson-button handler, which
swallows it and restores idle UI in its `finally` (via
`stopCurrentAudio`) when the token is unchanged. -/
theorem play_failure_handling :
    (∀ (a b : Nat) (s : PlayerState),
      ¬(s.running = false ∧ s.curAudio = some a ∧ s.audioPlaying a = true) →
      (manualClick a b false s).audioMissing a = true
      ∧ (manualClick a b false s).curAudio = none
      ∧ (manualClick a b false s).btnPlaying b = false)
    ∧ (∀ (a : Nat) (b : Option Nat) (s : PlayerState),
        (playOne a b false s).audioMissing = s.audioMissing
        ∧ (playOne a b false s).curAudio = some a)
    ∧ (∀ (T : Nat) (s : PlayerState), s.token = T →
        (step (Ev.runFinally T) s).curAudio = none
        ∧ (step (Ev.runFinally T) s).running = false) := by
  refine ⟨?_, ?_, ?_⟩
  · intro a b s hng
    unfold manualClick
    by_cases hr : s.running = true
    · rw [if_pos hr]
      unfold manualClickBody
      have hcur : (stopIfOther a (stopLessonPlayback s)).curAudio = none := by
        rw [stopIfOther_of_none a (stopLessonPlayback_curAudio s),
          stopLessonPlayback_curAudio]
      exact manualToggleOrStart_failed a b _ (fun hcontra => by
        rw [hcur] at hcontra
        exact absurd hcontra.1 (by simp))
    · rw [if_neg hr]
      unfold manualClickBody
      have hrf : s.running = false := by
        cases hrr : s.running
        · rfl
        · exact absurd hrr hr
      cases hA : s.curAudio with
      | none =>
        refine manualToggleOrStart_failed a b _ (fun hcontra => ?_)
        rw [stopIfOther_of_none a hA, hA] at hcontra
        exact absurd hcontra.1 (by simp)
      | some c =>
        by_cases hca : c = a
        · have hA2 : s.curAudio = some a := by rw [hA, hca]
          refine manualToggleOrStart_failed a b _ (fun hcontra => ?_)
          rw [stopIfOther_of_self hA2] at hcontra
          exact hng ⟨hrf, hcontra.1, hcontra.2⟩
        · refine manualToggleOrStart_failed a b _ (fun hcontra => ?_)
          rw [stopIfOther_of_other hA hca, stopCurrentAudio_curAudio] at hcontra
          exact absurd hcontra.1 (by simp)
  · intro a b s
    exact ⟨playOne_audioMissing a b false s, playOne_curAudio a b false s⟩
  · intro T s hT
    constructor
    · show (if s.token = T then
          stopCurrentAudio { s with running := false, lessonBtnUI := false }
        else s).curAudio = none
      rw [if_pos hT, stopCurrentAudio_curAudio]
    · show (if s.token = T then
          stopCurrentAudio { s with running := false, lessonBtnUI := false }
        else s).running = false
      rw [if_pos hT, stopCurrentAudio_running]

/-- Closed witness for C6's amended theorem: a failed manual click from
page load flags the clip and restores idle UI, and the run cleanup with a
matching token clears the slot. -/
theorem play_failure_handling_witness :
    (manualClick 0 5 false initPlayerState).audioMissing 0 = true
    ∧ (step (Ev.runFinally 0) initPlayerState).curAudio = none :=
  ⟨(play_failure_handling.1 0 5 initPlayerState (by decide)).1,
    (play_failure_handling.2.2 0 initPlayerState (by decide)).1⟩

/-! ### Lemmas about the stable sort and `buildModel` -/

theorem mem_jsInsert {α : Type} {le : α → α → Bool} {x y : α} :
    ∀ {l : List α}, y ∈ jsInsert le x l ↔ y = x ∨ y ∈ l
  | [] => by simp [jsInsert]
  | z :: zs => by
    unfold jsInsert
    by_cases h : le x z = true
    · rw [if_pos h]
      simp
    · rw [if_neg h]
      rw [List.mem_cons, mem_jsInsert (l := zs), List.mem_cons]
      tauto

theorem mem_jsSortBy {α : Type} {le : α → α → Bool} {y : α} :
    ∀ {l : List α}, y ∈ jsSortBy le l ↔ y ∈ l
  | [] => Iff.rfl
  | x :: xs => by
    unfold jsSortBy
    rw [mem_jsInsert, mem_jsSortBy (l := xs), List.mem_cons]

theorem jsInsert_congr {α : Type} {le le' : α → α → Bool} {x : α} :
    ∀ {l : List α}, (∀ y ∈ l, le x y = le' x y) →
      jsInsert le x l = jsInsert le' x l
  | [], _ => rfl
  | z :: zs, h => by
    unfold jsInsert
    rw [h z (by simp)]
    by_cases h2 : le' x z = true
    · rw [if_pos h2, if_pos h2]
    · rw [if_neg h2, if_neg h2,
        jsInsert_congr (fun y hy => h y (List.mem_cons_of_mem _ hy))]

theorem jsSortBy_congr {α : Type} {le le' : α → α → Bool} :
    ∀ {l : List α}, (∀ x ∈ l, ∀ y ∈ l, le x y = le' x y) →
      jsSortBy le l = jsSortBy le' l
  | [], _ => rfl
  | x :: xs, h => by
    unfold jsSortBy
    rw [jsSortBy_congr (l := xs)
      (fun u hu v hv => h u (List.mem_cons_of_mem _ hu) v
        (List.mem_cons_of_mem _ hv))]
    exact jsInsert_congr (fun y hy => h x (by simp) y
      (List.mem_cons_of_mem _ ((mem_jsSortBy).mp hy)))

theorem pairwise_jsInsert {α : Type} {le : α → α → Bool}
    (htot : ∀ a b, le a b = true ∨ le b a = true)
    (htrans : ∀ a b c, le a b = true → le b c = true → le a c = true)
    (x : α) : ∀ {l : List α}, List.Pairwise (fun a b => le a b = true) l →
      List.Pairwise (fun a b => le a b = true) (jsInsert le x l)
  | [], _ => by simp [jsInsert]
  | z :: zs, hp => by
    rcases List.pairwise_cons.mp hp with ⟨hz, hzs⟩
    unfold jsInsert
    by_cases h : le x z = true
    · rw [if_pos h]
      refine List.pairwise_cons.mpr ⟨?_, hp⟩
      intro y hy
      rcases List.mem_cons.mp hy with rfl | hy2
      · exact h
      · exact htrans x z y h (hz y hy2)
    · rw [if_neg h]
      refine List.pairwise_cons.mpr ⟨?_, pairwise_jsInsert htot htrans x hzs⟩
      intro y hy
      rcases (mem_jsInsert).mp hy with rfl | hy2
      · rcases htot y z with h1 | h1
        · exact absurd h1 h
        · exact h1
      · exact hz y hy2

theorem pairwise_jsSortBy {α : Type} {le : α → α → Bool}
    (htot : ∀ a b, le a b = true ∨ le b a = true)
    (htrans : ∀ a b c, le a b = true → le b c = true → le a c = true) :
    ∀ (l : List α), List.Pairwise (fun a b => le a b = true) (jsSortBy le l)
  | [] => List.Pairwise.nil
  | x :: xs => pairwise_jsInsert htot htrans x (pairwise_jsSortBy htot htrans xs)

theorem sorted_lines_of_isSome {l : List ModelLine}
    (h : ∀ x ∈ l, x.lineNo.isSome = true) :
    List.Pairwise (fun x y : ModelLine => x.lineNo.getD 0 ≤ y.lineNo.getD 0)
      (jsSortBy lineLe l) := by
  have hcong : jsSortBy lineLe l =
      jsSortBy (fun x y : ModelLine =>
        decide (x.lineNo.getD 0 ≤ y.lineNo.getD 0)) l := by
    apply jsSortBy_congr
    intro x hx y hy
    rcases Option.isSome_iff_exists.mp (h x hx) with ⟨m, hm⟩
    rcases Option.isSome_iff_exists.mp (h y hy) with ⟨n, hn⟩
    unfold lineLe
    rw [hm, hn]
    simp
  rw [hcong]
  have hp := @pairwise_jsSortBy ModelLine
    (fun x y : ModelLine => decide (x.lineNo.getD 0 ≤ y.lineNo.getD 0))
    (fun a b => by
      rcases Int.le_total (a.lineNo.getD 0) (b.lineNo.getD 0) with h1 | h1
      · exact Or.inl (decide_eq_true h1)
      · exact Or.inr (decide_eq_true h1))
    (fun a b c h1 h2 =>
      decide_eq_true (le_trans (of_decide_eq_true h1) (of_decide_eq_true h2)))
    l
  exact hp.imp (fun hxy => of_decide_eq_true hxy)

theorem upsertLine_isSome {lid cefr : String} {ln : ModelLine}
    (hln : ln.lineNo.isSome = true) :
    ∀ {m : List (String × Lesson)},
      (∀ p ∈ m, ∀ l ∈ p.2.lines, l.lineNo.isSome = true) →
      ∀ p ∈ upsertLine lid cefr ln m, ∀ l ∈ p.2.lines, l.lineNo.isSome = true
  | [], _ => by
    intro p hp l hl
    simp only [upsertLine, List.mem_singleton] at hp
    subst hp
    simp only [List.mem_singleton] at hl
    subst hl
    exact hln
  | (k, les) :: rest, hm => by
    intro p hp l hl
    unfold upsertLine at hp
    by_cases hk : k = lid
    · rw [if_pos hk] at hp
      rcases List.mem_cons.mp hp with rfl | hp2
      · rcases List.mem_append.mp hl with hl1 | hl2
        · exact hm (k, les) (by simp) l hl1
        · simp only [List.mem_singleton] at hl2
          subst hl2
          exact hln
      · exact hm p (List.mem_cons_of_mem _ hp2) l hl
    · rw [if_neg hk] at hp
      rcases List.mem_cons.mp hp with rfl | hp2
      · exact hm (k, les) (by simp) l hl
      · exact upsertLine_isSome hln
          (fun q hq => hm q (List.mem_cons_of_mem _ hq)) p hp2 l hl

theorem rowsToLessons_isSome {languageCols : List String} :
    ∀ (rows : List Row) (acc : List (String × Lesson)),
      (∀ r ∈ rows, (jsNumber r.line).isSome = true) →
      (∀ p ∈ acc, ∀ l ∈ p.2.lines, l.lineNo.isSome = true) →
      ∀ p ∈ rowsToLessons languageCols rows acc, ∀ l ∈ p.2.lines,
        l.lineNo.isSome = true
  | [], _, _, hacc => hacc
  | r :: rows, acc, hrows, hacc => by
    unfold rowsToLessons
    by_cases hlid : jsTrimS r.lesson = ""
    · rw [if_pos hlid]
      exact rowsToLessons_isSome rows acc
        (fun r2 h2 => hrows r2 (List.mem_cons_of_mem _ h2)) hacc
    · rw [if_neg hlid]
      exact rowsToLessons_isSome rows _
        (fun r2 h2 => hrows r2 (List.mem_cons_of_mem _ h2))
        (upsertLine_isSome (hrows r (by simp)) hacc)

/-- C9: `buildModel` groups rows by lesson identifier and sorts each
lesson's lines in ascending numeric line-number order: both input orders
of the two-row dataset `Lesson=1,Line=2,English=Hi` /
`Lesson=1,Line=1,English=Hello` yield lesson `"1"` with lines
`[1 : Hello, 2 : Hi]`, and for every row list with numeric line fields
every built lesson's lines are sorted ascending by line number. -/
theorem buildModel_groups_and_sorts :
    (buildModel [⟨"1", "2", "", [("English", "Hi")]⟩,
        ⟨"1", "1", "", [("English", "Hello")]⟩] =
      Except.ok ⟨[⟨"1", "", [⟨some 1, [("English", "Hello")]⟩,
        ⟨some 2, [("English", "Hi")]⟩]⟩], ["1"], ["English"]⟩
    ∧ buildModel [⟨"1", "1", "", [("English", "Hello")]⟩,
        ⟨"1", "2", "", [("English", "Hi")]⟩] =
      Except.ok ⟨[⟨"1", "", [⟨some 1, [("English", "Hello")]⟩,
        ⟨some 2, [("English", "Hi")]⟩]⟩], ["1"], ["English"]⟩)
    ∧ (∀ (rows : List Row) (m : ModelOut), buildModel rows = Except.ok m →
        (∀ r ∈ rows, (jsNumber r.line).isSome = true) →
        ∀ les ∈ m.lessons,
          List.Pairwise (fun x y : ModelLine =>
            x.lineNo.getD 0 ≤ y.lineNo.getD 0) les.lines) := by
  refine ⟨⟨by decide, by decide⟩, ?_⟩
  intro rows m hok hsome les hles
  cases rows with
  | nil => exact absurd hok (by simp [buildModel])
  | cons r0 rest =>
    simp only [buildModel] at hok
    by_cases hl : ((r0.texts.map (fun p => p.1)).filter
        (fun c => !(["Lesson", "Line", "CEFR"].contains c))).isEmpty = true
    · rw [if_pos hl] at hok
      exact absurd hok (by simp)
    · rw [if_neg hl] at hok
      have hm := Except.ok.inj hok
      subst hm
      simp only [List.mem_map] at hles
      obtain ⟨lid, _, hles2⟩ := hles
      cases hfind : lookupLesson (rowsToLessons
          ((r0.texts.map (fun p => p.1)).filter
            (fun c => !(["Lesson", "Line", "CEFR"].contains c)))
          (r0 :: rest) []) lid with
      | none =>
        rw [hfind] at hles2
        rw [← hles2]
        exact List.Pairwise.nil
      | some les0 =>
        rw [hfind] at hles2
        rw [← hles2]
        show List.Pairwise _ (jsSortBy lineLe les0.lines)
        apply sorted_lines_of_isSome
        intro x hx
        unfold lookupLesson at hfind
        cases hfind2 : (rowsToLessons
            ((r0.texts.map (fun p => p.1)).filter
              (fun c => !(["Lesson", "Line", "CEFR"].contains c)))
            (r0 :: rest) []).find? (fun p => p.1 == lid) with
        | none =>
          rw [hfind2] at hfind
          exact absurd hfind (by simp)
        | some pr =>
          rw [hfind2] at hfind
          have hfind3 : pr.2 = les0 := by
            simpa using hfind
          have hpr := List.mem_of_find?_eq_some hfind2
          have hline := rowsToLessons_isSome (r0 :: rest) [] hsome
            (fun p hp => absurd hp (List.not_mem_nil p)) pr hpr
          rw [hfind3] at hline
          exact hline x hx

/-- Closed witness for C9's hypothesised conjunct at the claim's concrete
dataset: the built lesson's lines come out sorted ascending. -/
theorem buildModel_groups_and_sorts_witness :
    List.Pairwise (fun x y : ModelLine =>
        x.lineNo.getD 0 ≤ y.lineNo.getD 0)
      ([⟨some 1, [("English", "Hello")]⟩,
        ⟨some 2, [("English", "Hi")]⟩] : List ModelLine) :=
  buildModel_groups_and_sorts.2
    [⟨"1", "2", "", [("English", "Hi")]⟩, ⟨"1", "1", "", [("English", "Hello")]⟩]
    ⟨[⟨"1", "", [⟨some 1, [("English", "Hello")]⟩,
      ⟨some 2, [("English", "Hi")]⟩]⟩], ["1"], ["English"]⟩
    (by decide) (by decide)
    ⟨"1", "", [⟨some 1, [("English", "Hello")]⟩,
      ⟨some 2, [("English", "Hi")]⟩]⟩ (by decide)

end Readable
